import Mathlib

/-!
Verification of the PDF section-structure extraction, hierarchy-validation
and coverage-reconciliation engine (`usb_pd_parser.py`,
`pdf_parser/coverage_analyzer.py`, `pdf_content_extract_for_USB/pdf_parser/`).

Each definition is a shallow embedding of one Python function of the
repository; theorems check the specification's claims against those
definitions.  Python floats arising from `common / total * 100` are modelled
as rationals (all quantities involved are exact); Python character classes
(`\s`, `str.strip`) are modelled with `Char.isWhitespace` / `String.trim`.
-/

/- ===================================================================
   Coverage analyzer: `pdf_parser/coverage_analyzer.py`
   =================================================================== -/

/-- Result dictionary of `CoverageAnalyzer._calculate_metrics`. -/
structure CoverageMetrics where
  total_toc : Nat
  total_spec : Nat
  common : Nat
  toc_only : Nat
  spec_only : Nat
  coverage_percentage : ℚ
  deriving Repr, DecidableEq

/-- Embedding of `CoverageAnalyzer._calculate_metrics(toc_ids, spec_ids)`
(`coverage_analyzer.py` lines 31-52): set cardinalities of the two id sets,
their intersection and the two differences, and
`common / total_toc * 100` guarded by `total_toc > 0`. -/
def calculateMetrics (toc_ids spec_ids : Finset String) : CoverageMetrics :=
  let total_toc := toc_ids.card
  let total_spec := spec_ids.card
  let common := (toc_ids ∩ spec_ids).card
  let toc_only := (toc_ids \ spec_ids).card
  let spec_only := (spec_ids \ toc_ids).card
  let coverage_percentage : ℚ :=
    if total_toc > 0 then (common : ℚ) / (total_toc : ℚ) * 100 else 0
  { total_toc := total_toc
    total_spec := total_spec
    common := common
    toc_only := toc_only
    spec_only := spec_only
    coverage_percentage := coverage_percentage }

/- ===================================================================
   Section Recognizer: `usb_pd_parser.py`
   =================================================================== -/

/-- The `Section` dataclass of `usb_pd_parser.py` (and `pdf_parser/base.py`). -/
structure PSection where
  section_id : String
  title : String
  page : Nat
  level : Nat
  parent_id : Option String
  full_path : String
  doc_title : String
  tags : List String
  deriving Repr, DecidableEq

/-- Python `str.strip()`: drop leading and trailing whitespace (list-based so
that the kernel can evaluate it on concrete strings). -/
def pyStrip (s : String) : String :=
  String.mk
    (((s.toList.dropWhile Char.isWhitespace).reverse.dropWhile
        Char.isWhitespace).reverse)

/-- Python `str.lower()` (ASCII case fold suffices for the table's keywords). -/
def pyLower (s : String) : String :=
  String.mk (s.toList.map Char.toLower)

/-- Python `str.split(sep)` for a one-character separator:
`"".split('.') = [""]`, `".".split('.') = ["", ""]`. -/
def splitOnChar (sep : Char) : List Char → List (List Char)
  | [] => [[]]
  | c :: rest =>
    let r := splitOnChar sep rest
    if c = sep then [] :: r
    else
      match r with
      | h :: t => (c :: h) :: t
      | [] => [[c]]

/-- Substring test: Python `needle in hay`. -/
def strContainsSub (hay needle : String) : Bool :=
  hay.toList.tails.any (fun t => needle.toList.isPrefixOf t)

/-- The keyword → tags table of `USBPDParser._generate_tags` (lines 176-198). -/
def tag_mappings : List (String × List String) :=
  [("power", ["power"]), ("contract", ["contracts"]), ("negotiation", ["negotiation"]),
   ("communication", ["communication"]), ("cable", ["cable"]), ("device", ["devices"]),
   ("protocol", ["protocol"]), ("state", ["state-machine"]), ("message", ["messaging"]),
   ("data", ["data"]), ("control", ["control"]), ("source", ["source"]),
   ("sink", ["sink"]), ("vbus", ["vbus"]), ("cc", ["cc-line"]),
   ("sop", ["sop"]), ("collision", ["collision", "avoidance"]),
   ("revision", ["revision"]), ("compatibility", ["compatibility"]),
   ("introduction", ["intro"]), ("overview", ["overview"])]

/-- Embedding of `USBPDParser._generate_tags(title)` (lines 170-204): collect the tags of
every keyword occurring in the lower-cased title, then de-duplicate.
Python's final `list(set(tags))` has unspecified order; it is modelled as an
order-preserving `dedup` (only membership is meaningful downstream). -/
def generateTags (title : String) : List String :=
  let lower := pyLower title
  (tag_mappings.foldl
    (fun acc kv => if strContainsSub lower kv.1 then acc ++ kv.2 else acc) []).dedup

/-- Greedy `(?:\.\d+)*` continuation of a dotted-numeric id.  Fuel is the
remaining length: every iteration consumes at least two characters. -/
def dotRunsGo : Nat → List Char → List Char × List Char
  | 0, cs => ([], cs)
  | fuel + 1, cs =>
    match cs with
    | '.' :: c :: rest =>
      if c.isDigit then
        let d := (c :: rest).takeWhile Char.isDigit
        let r := (c :: rest).dropWhile Char.isDigit
        let p := dotRunsGo fuel r
        ('.' :: d ++ p.1, p.2)
      else ([], cs)
    | _ => ([], cs)

/-- Greedy match of `^(\d+(?:\.\d+)*)` returning the id characters and the
rest of the line.  In all the patterns of `usb_pd_parser.py` the id group is
followed by `\s+` or `\s*\t+`, which a dot or a digit can never begin, so the
greedy parse needs no backtracking to be equivalent to the regex. -/
def parseDottedId (cs : List Char) : Option (List Char × List Char) :=
  let d := cs.takeWhile Char.isDigit
  if d = [] then none
  else
    let r := cs.dropWhile Char.isDigit
    let p := dotRunsGo r.length r
    some (d ++ p.1, p.2)

/-- Deterministic tail match of `\s*\.{2,}\s*(\d+)$` (pattern 1 of
`section_patterns`), returning the digits of the trailing page group.
Backtracking cannot help: shrinking a greedy run always leaves a character
the next regex element rejects. -/
def matchDotLeaderPage (cs : List Char) : Option (List Char) :=
  let c1 := cs.dropWhile Char.isWhitespace
  let dots := c1.takeWhile (· = '.')
  if 2 ≤ dots.length then
    let c2 := (c1.dropWhile (· = '.')).dropWhile Char.isWhitespace
    if c2 ≠ [] ∧ c2.all Char.isDigit then some c2 else none
  else none

/-- Deterministic tail match of `\s+(\d+)$` (pattern 2 of `section_patterns`). -/
def matchWsPage (cs : List Char) : Option (List Char) :=
  if cs.takeWhile Char.isWhitespace = [] then none
  else
    let c1 := cs.dropWhile Char.isWhitespace
    if c1 ≠ [] ∧ c1.all Char.isDigit then some c1 else none

/-- Deterministic tail match of `\t+(\d+)$` (pattern 3 of `section_patterns`). -/
def matchTabPage (cs : List Char) : Option (List Char) :=
  if cs.takeWhile (· = '\t') = [] then none
  else
    let c1 := cs.dropWhile (· = '\t')
    if c1 ≠ [] ∧ c1.all Char.isDigit then some c1 else none

/-- Lazy title group (`[^X]+?`): try title lengths in ascending order, first
length whose remainder the tail matcher accepts wins — exactly the order a
backtracking regex engine explores a lazy quantifier. -/
def lazyTitleSearch (ok : Char → Bool) (m : List Char → Option (List Char))
    (cs : List Char) : Option (List Char × List Char) :=
  ((List.range cs.length).map (· + 1)).findSome? (fun b =>
    let t := cs.take b
    if t.all ok then
      match m (cs.drop b) with
      | some pg => some (t, pg)
      | none => none
    else none)

/-- Greedy `\s+` with backtracking: try the longest whitespace run first and
shrink down to one character, exactly the order a regex engine explores. -/
def wsPlusSearch (f : List Char → Option α) (cs : List Char) : Option α :=
  let w := (cs.takeWhile Char.isWhitespace).length
  ((List.range w).map (fun i => w - i)).findSome? (fun a => f (cs.drop a))

/-- Greedy `\s*` with backtracking down to the empty match. -/
def wsStarSearch (f : List Char → Option α) (cs : List Char) : Option α :=
  let w := (cs.takeWhile Char.isWhitespace).length
  ((List.range (w + 1)).map (fun i => w - i)).findSome? (fun g => f (cs.drop g))

/-- Pattern `^(\d+(?:\.\d+)*)\s+([^.]+?)\s*\.{2,}\s*(\d+)$`
(`section_patterns[0]`, line 54). -/
def matchPattern1 (cs : List Char) : Option (List Char × List Char × List Char) :=
  match parseDottedId cs with
  | none => none
  | some (id, rest) =>
    match wsPlusSearch (lazyTitleSearch (· ≠ '.') matchDotLeaderPage) rest with
    | some (t, pg) => some (id, t, pg)
    | none => none

/-- Pattern `^(\d+(?:\.\d+)*)\s+([^0-9]+?)\s+(\d+)$`
(`section_patterns[1]`, line 56). -/
def matchPattern2 (cs : List Char) : Option (List Char × List Char × List Char) :=
  match parseDottedId cs with
  | none => none
  | some (id, rest) =>
    match wsPlusSearch (lazyTitleSearch (fun c => ¬ c.isDigit) matchWsPage) rest with
    | some (t, pg) => some (id, t, pg)
    | none => none

/-- Pattern `^(\d+(?:\.\d+)*)\s*\t+([^\t]+?)\t+(\d+)$`
(`section_patterns[2]`, line 58).  `\s*` may swallow leading tabs, so it
backtracks until `\t+` finds a tab; the first `\t+` is then deterministic
because the lazy title group `[^\t]+?` can never absorb a tab. -/
def matchPattern3 (cs : List Char) : Option (List Char × List Char × List Char) :=
  match parseDottedId cs with
  | none => none
  | some (id, rest) =>
    let afterTabs := fun (c1 : List Char) =>
      if c1.takeWhile (· = '\t') = [] then none
      else lazyTitleSearch (· ≠ '\t') matchTabPage (c1.dropWhile (· = '\t'))
    match wsStarSearch afterTabs rest with
    | some (t, pg) => some (id, t, pg)
    | none => none

/-- The `for pattern in self.section_patterns` loop with `break` on first
match (`_extract_sections_from_text`, lines 129-131). -/
def trySectionPatterns (cs : List Char) : Option (List Char × List Char × List Char) :=
  (matchPattern1 cs).orElse (fun _ => (matchPattern2 cs).orElse (fun _ => matchPattern3 cs))

/-- Python `int` on the all-digit page group. -/
def digitsToNat (cs : List Char) : Nat :=
  cs.foldl (fun n c => n * 10 + (c.toNat - 48)) 0

/-- Embedding of `'.'.join(section_id.split('.')[:-1])` (lines 145-146). -/
def removeLastDotComponent (s : String) : String :=
  String.mk (List.intercalate ['.'] ((splitOnChar '.' s.toList).dropLast))

/-- The common Section construction of `_extract_sections_from_text`
(lines 139-163) and `_parse_section_header` (lines 256-274): level from the
dot count, parent from the id minus its last component, `full_path` from id
and title. -/
def mkSection (doc_title section_id title : String) (page_ref : Nat) : PSection :=
  { section_id := section_id
    title := title
    page := page_ref
    level := section_id.toList.count '.' + 1
    parent_id :=
      if section_id.toList.contains '.' then some (removeLastDotComponent section_id)
      else none
    full_path := section_id ++ " " ++ title
    doc_title := doc_title
    tags := generateTags title }

/-- Embedding of `USBPDParser._extract_sections_from_text(lines, page_num)`
(lines 119-168): strip each line, skip empty lines, take the first matching
ToC pattern, build a Section from its groups (the embedded trailing number is
the page reference). -/
def extractSectionsFromText (doc_title : String) (lines : List String)
    (page_num : Nat) : List PSection :=
  lines.filterMap (fun line =>
    let l := pyStrip line
    if l = "" then none
    else
      match trySectionPatterns l.toList with
      | some (id, t, pg) =>
          some (mkSection doc_title (String.mk id) (pyStrip (String.mk t))
            (digitsToNat pg))
      | none => none)

/-- The regex `^(\d+(?:\.\d+)*)\s+(.+)$` of `_parse_section_header`
(line 251).  `\s+` is greedy; when everything after the id is whitespace it
backtracks one character so that `(.+)` is non-empty.  Input lines contain no
newline (the caller splits page text on `'\n'`). -/
def matchHeaderPattern (cs : List Char) : Option (List Char × List Char) :=
  match parseDottedId cs with
  | none => none
  | some (id, rest) =>
    let w := (rest.takeWhile Char.isWhitespace).length
    if w = 0 then none
    else if w < rest.length then some (id, rest.drop w)
    else if 2 ≤ w then some (id, rest.drop (w - 1))
    else none

/-- Embedding of `USBPDParser._parse_section_header(line, page_num)` (lines 248-276): the
full-body recognizer uses the page being scanned, not a number embedded in
the line. -/
def parseSectionHeader (doc_title : String) (line : String)
    (page_num : Nat) : Option PSection :=
  match matchHeaderPattern line.toList with
  | some (id, t) =>
      some (mkSection doc_title (String.mk id) (pyStrip (String.mk t)) page_num)
  | none => none

/-- The by-construction invariant claimed for every Section the Recognizer
emits: level is the dot count of the id plus one, the parent id is the id
minus its last dot-component (absent when the id has no dot), and the full
path is `"{section_id} {title}"`. -/
def recognizerInvariant (s : PSection) : Prop :=
  s.level = s.section_id.toList.count '.' + 1 ∧
  s.parent_id =
    (if s.section_id.toList.contains '.' then
       some (removeLastDotComponent s.section_id)
     else none) ∧
  s.full_path = s.section_id ++ " " ++ s.title

/- ===================================================================
   JSONL records as Python dictionaries
   =================================================================== -/

/-- A JSON value as stored in the repository's JSONL records.  Lists occur
only as lists of strings (`tags`).  Python booleans are kept distinct from
integers; the spots where Python would coerce (`True == 1`) are noted at the
definitions concerned. -/
inductive JVal where
  | jNull
  | jBool (b : Bool)
  | jInt (n : Int)
  | jStr (s : String)
  | jList (xs : List String)
  deriving Repr, DecidableEq

open JVal

/-- A JSONL record: a Python dict in insertion order with unique keys. -/
def JRec := List (String × JVal)
  deriving Repr, DecidableEq

/-- First binding of a key (keys are unique in records built from dict
literals). -/
def getKey (r : JRec) (k : String) : Option JVal :=
  (List.find? (fun p => p.1 = k) r).map (·.2)

/-- Python `dict.get(k)`: `None` when the key is absent. -/
def dictGet (r : JRec) (k : String) : JVal :=
  (getKey r k).getD jNull

/-- Python `dict[k]`: raises `KeyError` when the key is absent. -/
def reqKey (r : JRec) (k : String) : Except String JVal :=
  match getKey r k with
  | some v => .ok v
  | none => .error ("KeyError: " ++ k)

/-- Python truthiness of a JSON value. -/
def truthy : JVal → Bool
  | jNull => false
  | jBool b => b
  | jInt n => n ≠ 0
  | jStr s => s ≠ ""
  | jList xs => xs ≠ []

/- ===================================================================
   Hierarchy validator:
   `pdf_content_extract_for_USB/pdf_parser/hierarchy_validator.py`
   =================================================================== -/

/-- Entry appended by `_check_orphaned_sections` (lines 35-39). -/
structure OrphanEntry where
  section_id : JVal
  title : JVal
  missing_parent : JVal
  deriving Repr, DecidableEq

/-- Entry appended by `_check_level_consistency` (lines 52-57).
`expected_level` is always the dot count plus one, an integer. -/
structure LevelEntry where
  section_id : JVal
  title : JVal
  actual_level : JVal
  expected_level : Int
  deriving Repr, DecidableEq

/-- Entry appended by `_check_parent_child_relationship` (lines 73-79). -/
structure PCEntry where
  section_id : JVal
  parent_id : JVal
  section_level : JVal
  parent_level : JVal
  expected_parent_level : Int
  deriving Repr, DecidableEq

/-- The result dict of `HierarchyValidator.validate` (lines 17-25); the
constant `file` path field is omitted, and the optional `error` key set by
the `except` clause (line 118) is an `Option`. -/
structure HierarchyResult where
  total_sections : Nat
  orphaned_sections : List OrphanEntry
  level_inconsistencies : List LevelEntry
  parent_child_mismatches : List PCEntry
  error : Option String
  deriving Repr, DecidableEq

/-- The `section_lookup` dict: association list in insertion order. -/
def Lookup := List (JVal × JRec)

/-- Embedding of the dict comprehension at line 94 building the lookup: raises on a record
without `section_id` and on an unhashable (list) key; a duplicate id is
overwritten by the later record. -/
def buildLookup : List JRec → Except String Lookup
  | [] => .ok []
  | r :: rest =>
    match reqKey r "section_id" with
    | .error e => .error e
    | .ok (jList _) => .error "TypeError: unhashable type: list"
    | .ok v =>
      match buildLookup rest with
      | .error e => .error e
      | .ok lk => .ok ((v, r) :: lk)

/-- Python `key in dict` (raises on an unhashable key). -/
def dictContains (lk : Lookup) (k : JVal) : Except String Bool :=
  match k with
  | jList _ => .error "TypeError: unhashable type: list"
  | _ => .ok (lk.any (fun p => p.1 = k))

/-- Python `dict[key]` on the lookup: a duplicate `section_id` is resolved to
the later record (later dict assignment wins). -/
def dictFind (lk : Lookup) (k : JVal) : Option JRec :=
  (lk.reverse.find? (fun p => p.1 = k)).map (·.2)

/-- Embedding of `_check_orphaned_sections(section, section_lookup)` (lines 27-40):
truthy `parent_id` absent from the lookup keys; the entry dict evaluates
`section['section_id']` and `section['title']`, either of which may raise. -/
def hvCheckOrphaned (r : JRec) (lk : Lookup) : Except String (Option OrphanEntry) :=
  let pid := dictGet r "parent_id"
  if truthy pid then
    match dictContains lk pid with
    | .error e => .error e
    | .ok true => .ok none
    | .ok false =>
      match reqKey r "section_id", reqKey r "title" with
      | .error e, _ => .error e
      | _, .error e => .error e
      | .ok sid, .ok tl => .ok (some ⟨sid, tl, pid⟩)
  else .ok none

/-- Python `section_id.count('.')`: raises unless the value is a string. -/
def pyCountDots : JVal → Except String Int
  | jStr s => .ok (s.toList.count '.' : Int)
  | _ => .error "AttributeError: count"

/-- Embedding of `_check_level_consistency(section)` (lines 42-58): reads `section_id`
then `level`, compares the stored level with the dot count plus one
(`level != expected` is structural here; the Python `True == 1` coercion
would differ only for boolean levels). -/
def hvCheckLevel (r : JRec) : Except String (Option LevelEntry) :=
  match reqKey r "section_id" with
  | .error e => .error e
  | .ok sid =>
    match reqKey r "level" with
    | .error e => .error e
    | .ok lvl =>
      match pyCountDots sid with
      | .error e => .error e
      | .ok dots =>
        if lvl = jInt (dots + 1) then .ok none
        else
          match reqKey r "title" with
          | .error e => .error e
          | .ok tl => .ok (some ⟨sid, tl, lvl, dots + 1⟩)

/-- Python `level - 1`: integer (or boolean, which Python treats as 0/1)
required. -/
def jvalSubOne : JVal → Except String Int
  | jInt n => .ok (n - 1)
  | jBool b => .ok ((if b then 1 else 0) - 1)
  | _ => .error "TypeError: unsupported operand"

/-- Embedding of `_check_parent_child_relationship(section, section_lookup)`
(lines 60-80): a truthy `parent_id` that resolves, whose parent's stored
level is not `level - 1`. -/
def hvCheckParentChild (r : JRec) (lk : Lookup) : Except String (Option PCEntry) :=
  let pid := dictGet r "parent_id"
  if truthy pid then
    match dictContains lk pid with
    | .error e => .error e
    | .ok false => .ok none
    | .ok true =>
      let parent := (dictFind lk pid).getD []
      match reqKey r "level" with
      | .error e => .error e
      | .ok lvl =>
        match jvalSubOne lvl with
        | .error e => .error e
        | .ok expected =>
          match reqKey parent "level" with
          | .error e => .error e
          | .ok plvl =>
            if plvl = jInt expected then .ok none
            else
              match reqKey r "section_id" with
              | .error e => .error e
              | .ok sid => .ok (some ⟨sid, pid, lvl, plvl, expected⟩)
  else .ok none

/-- One iteration of the `for section in sections` loop (lines 96-115): the
three checks run in order, each appending its entry; an exception anywhere
leaves the entries appended so far in place and records the error. -/
def hvStep (lk : Lookup) (acc : HierarchyResult) (r : JRec) : HierarchyResult :=
  match hvCheckOrphaned r lk with
  | .error e => { acc with error := some e }
  | .ok o =>
    let acc1 :=
      match o with
      | some en => { acc with orphaned_sections := acc.orphaned_sections ++ [en] }
      | none => acc
    match hvCheckLevel r with
    | .error e => { acc1 with error := some e }
    | .ok l =>
      let acc2 :=
        match l with
        | some en =>
            { acc1 with
              level_inconsistencies := acc1.level_inconsistencies ++ [en] }
        | none => acc1
      match hvCheckParentChild r lk with
      | .error e => { acc2 with error := some e }
      | .ok p =>
        match p with
        | some en =>
            { acc2 with
              parent_child_mismatches := acc2.parent_child_mismatches ++ [en] }
        | none => acc2

/-- The record loop: a raised exception aborts the remaining iterations. -/
def hvLoop (lk : Lookup) : List JRec → HierarchyResult → HierarchyResult
  | [], acc => acc
  | r :: rest, acc =>
    let acc' := hvStep lk acc r
    match acc'.error with
    | some _ => acc'
    | none => hvLoop lk rest acc'

/-- Embedding of `HierarchyValidator.validate(file_path)` (lines 82-120), with the JSONL
read abstracted as an `Except`: an unreadable file yields the initial result
with the exception text in `error`; otherwise `total_sections` is set, the
lookup is built (which may itself raise), and the loop runs. -/
def hierarchyValidate (load : Except String (List JRec)) : HierarchyResult :=
  match load with
  | .error e =>
    { total_sections := 0
      orphaned_sections := []
      level_inconsistencies := []
      parent_child_mismatches := []
      error := some e }
  | .ok sections =>
    let base : HierarchyResult :=
      { total_sections := sections.length
        orphaned_sections := []
        level_inconsistencies := []
        parent_child_mismatches := []
        error := none }
    match buildLookup sections with
    | .error e => { base with error := some e }
    | .ok lk => hvLoop lk sections base

/-- A well-formed persisted section as the hierarchy claims use it: the four
fields the validator reads (other record keys never shadow these and are
irrelevant to the checks). -/
structure HSec where
  section_id : String
  title : String
  level : Int
  parent_id : Option String
  deriving Repr, DecidableEq

/-- The record (dict) a well-formed section is stored as. -/
def hsecToJRec (s : HSec) : JRec :=
  [("section_id", jStr s.section_id), ("title", jStr s.title),
   ("level", jInt s.level),
   ("parent_id", match s.parent_id with | some p => jStr p | none => jNull)]

/-- The claim's wording of the orphan check: a section with a non-empty
`parent_id` that is not the `section_id` of any section of the inventory. -/
def orphanSpec (ids : List String) (s : HSec) : Option OrphanEntry :=
  match s.parent_id with
  | some p =>
    if p ≠ "" ∧ p ∉ ids then some ⟨jStr s.section_id, jStr s.title, jStr p⟩
    else none
  | none => none

/-- The claim's wording of the level check: stored level differs from
`count('.', section_id) + 1`, computed from the id alone. -/
def levelSpec (s : HSec) : Option LevelEntry :=
  if s.level ≠ (s.section_id.toList.count '.' : Int) + 1 then
    some ⟨jStr s.section_id, jStr s.title, jInt s.level,
          (s.section_id.toList.count '.' : Int) + 1⟩
  else none

/-- The parent a duplicate-tolerant dict lookup resolves to: the last
section of the inventory carrying the id. -/
def findParent (all : List HSec) (p : String) : Option HSec :=
  all.reverse.find? (fun t => t.section_id = p)

/-- The parent/child level check at the typed level: a resolving parent
whose stored level is not `level - 1`. -/
def pcSpec (all : List HSec) (s : HSec) : Option PCEntry :=
  match s.parent_id with
  | some p =>
    if p ≠ "" then
      match findParent all p with
      | some parent =>
        if parent.level ≠ s.level - 1 then
          some ⟨jStr s.section_id, jStr p, jInt s.level, jInt parent.level,
                s.level - 1⟩
        else none
      | none => none
    else none
  | none => none

/-- The `section_lookup` built from a well-formed inventory. -/
def mkLookup (all : List HSec) : Lookup :=
  all.map (fun s => (jStr s.section_id, hsecToJRec s))

/- ===================================================================
   Content enhancer:
   `pdf_content_extract_for_USB/pdf_parser/content_enhancer.py`
   =================================================================== -/

/-- A well-formed ToC (reference inventory) record as the enhancer reads it:
the five fields used by `_get_toc_entry_for_page` and the section synthesis
(the `.get` defaults of lines 194 and 231-232 never fire on these). -/
structure TocEntry where
  section_id : String
  title : String
  page : Nat
  level : Int
  parent_id : Option String
  deriving Repr, DecidableEq

/-- A candidate (spec inventory) record as the enhancer reads it: only
`section_id` and `page` are consulted. -/
structure SpecEntry where
  section_id : String
  page : Nat
  deriving Repr, DecidableEq

/-- Python `max(xs) if xs else 0` over page numbers. -/
def maxList (l : List Nat) : Nat := l.foldr max 0

/-- Embedding of `ContentEnhancer._get_missing_pages` (lines 107-130): pages in
`[1, max page of either inventory]` absent from the candidate's page set,
in ascending order (`sorted(set(range(1, max+1)) - spec_pages)`). -/
def getMissingPages (tocPages specPages : List Nat) : List Nat :=
  let max_page := max (maxList tocPages) (maxList specPages)
  (List.range' 1 max_page).filter (fun p => p ∉ specPages)

/-- Embedding of `ContentEnhancer._get_toc_entry_for_page(page)` (lines 175-196): among
the ToC entries with this exact page, the first one with the lowest level
(Python `min` is stable). -/
def tocEntryForPage (toc : List TocEntry) (page : Nat) : Option TocEntry :=
  match toc.filter (fun e => e.page = page) with
  | [] => none
  | h :: t => some (t.foldl (fun best e => if e.level < best.level then e else best) h)

/-- A synthesized (enhanced) section as built at lines 226-246.
`parentField = some v` models the ToC-copied dict whose `parent_id` key is
present with value `v`; `parentField = none` models the placeholder dict,
which has no `parent_id` key at all.  Both dict shapes carry
`enhanced: true`. -/
structure EnhRec where
  section_id : String
  page : Nat
  title : String
  level : Int
  parentField : Option (Option String)
  content : String
  deriving Repr, DecidableEq

/-- The dict of lines 228-236: id/title/level/parent copied from the ToC
entry, the page's raw text as `content`. -/
def enhFromToc (e : TocEntry) (page : Nat) (text : String) : EnhRec :=
  { section_id := e.section_id
    page := page
    title := e.title
    level := e.level
    parentField := some e.parent_id
    content := text }

/-- The dict of lines 238-246: placeholder id `"enhanced_{page}"`, generic
title, level 1, no `parent_id` key. -/
def enhPlaceholder (page : Nat) (text : String) : EnhRec :=
  { section_id := "enhanced_" ++ toString page
    page := page
    title := "Page " ++ toString page ++ " Content"
    level := 1
    parentField := none
    content := text }

/-- The body of the `for page_num in sorted(missing_pages)` loop
(lines 219-248): synthesize one section for the page when the stripped text
exceeds 50 characters (`if page_text and len(page_text.strip()) > 50`),
copying the ToC entry for that page when one exists. -/
def synthesizeForPage (ts : Nat → String) (toc : List TocEntry)
    (p : Nat) : Option EnhRec :=
  let t := ts p
  if t ≠ "" ∧ 50 < (pyStrip t).length then
    match tocEntryForPage toc p with
    | some e => some (enhFromToc e p t)
    | none => some (enhPlaceholder p t)
  else none

/-- Embedding of `ContentEnhancer.extract_missing_content` (lines 198-256), with the Text
Source abstracted as a function from page number to extracted text: the loop
body applied to each missing page in ascending order.  The function returns
the list of sections appended to the candidate inventory's storage. -/
def extractMissingContent (ts : Nat → String) (toc : List TocEntry)
    (spec : List SpecEntry) : List EnhRec :=
  (getMissingPages (toc.map (·.page)) (spec.map (·.page))).filterMap
    (synthesizeForPage ts toc)

/-- The candidate-inventory view of an appended enhanced record (its
`section_id` and `page`), as a second gap-fill pass would read it back. -/
def enhToSpecEntry (r : EnhRec) : SpecEntry :=
  { section_id := r.section_id, page := r.page }

/- ===================================================================
   Schema validator:
   `pdf_content_extract_for_USB/pdf_parser/schema_validator.py`
   =================================================================== -/

/-- Embedding of `SchemaValidator.required_fields` (lines 19-22). -/
def schemaRequiredFields : List String :=
  ["section_id", "title", "page", "level", "parent_id", "full_path",
   "doc_title", "tags"]

/-- Embedding of `SchemaValidator._check_required_fields(record)` (lines 46-54): the
required fields that are not keys of the record, in table order. -/
def checkRequiredFields (r : JRec) : List String :=
  schemaRequiredFields.filter (fun f => f ∉ r.map (·.1))

/-- Python `isinstance(v, str)`. -/
def isStr : JVal → Bool
  | jStr _ => true
  | _ => false

/-- Python `isinstance(v, int)`: booleans are ints in Python. -/
def isIntLike : JVal → Bool
  | jInt _ => true
  | jBool _ => true
  | _ => false

/-- Python `isinstance(v, list)`. -/
def isList : JVal → Bool
  | jList _ => true
  | _ => false

/-- Embedding of `SchemaValidator.type_checks` (lines 24-32). -/
def schemaTypeChecks : List (String × (JVal → Bool)) :=
  [("section_id", isStr), ("title", isStr), ("page", isIntLike),
   ("level", isIntLike), ("full_path", isStr), ("doc_title", isStr),
   ("tags", isList)]

/-- Embedding of `SchemaValidator._check_field_types(record)` (lines 56-68), abstracting
each human-readable message to the offending field's name.  It is only
reached for records with every required field present, so the raising
`record[field]` access is total there. -/
def checkFieldTypes (r : JRec) : List String :=
  schemaTypeChecks.filterMap (fun fc =>
    if fc.2 ((getKey r fc.1).getD jNull) then none else some fc.1)

/-- The result dict of `SchemaValidator.validate` (lines 34-44); the `file`
path is omitted and the `errors` message list is abstracted to the counters
it mirrors. -/
structure SchemaResult where
  total_records : Nat
  valid_records : Nat
  invalid_records : Nat
  missing_fields : List String
  field_types_valid : Bool
  deriving Repr, DecidableEq

/-- One iteration of the record loop of `validate` (lines 103-120): missing
fields make the record invalid (extending `missing_fields`), then type
errors make it invalid (clearing `field_types_valid`), otherwise it is
valid. -/
def schemaStep (acc : SchemaResult) (r : JRec) : SchemaResult :=
  let acc1 := { acc with total_records := acc.total_records + 1 }
  let missing := checkRequiredFields r
  if missing ≠ [] then
    { acc1 with
      missing_fields := acc1.missing_fields ++ missing
      invalid_records := acc1.invalid_records + 1 }
  else
    let typeErrors := checkFieldTypes r
    if typeErrors ≠ [] then
      { acc1 with
        field_types_valid := false
        invalid_records := acc1.invalid_records + 1 }
    else { acc1 with valid_records := acc1.valid_records + 1 }

/-- Embedding of `SchemaValidator.validate(file_path)` (lines 97-125) on a successfully
read record list. -/
def schemaValidate (records : List JRec) : SchemaResult :=
  records.foldl schemaStep
    { total_records := 0
      valid_records := 0
      invalid_records := 0
      missing_fields := []
      field_types_valid := true }

/-- The dict an enhanced record is persisted as (`jsonlines` writes the dict
of lines 228-236 or 238-246 key for key). -/
def enhRecToJRec (r : EnhRec) : JRec :=
  match r.parentField with
  | some pv =>
    [("section_id", jStr r.section_id), ("page", jInt r.page),
     ("title", jStr r.title), ("level", jInt r.level),
     ("parent_id", match pv with | some p => jStr p | none => jNull),
     ("content", jStr r.content), ("enhanced", jBool true)]
  | none =>
    [("section_id", jStr r.section_id), ("page", jInt r.page),
     ("title", jStr r.title), ("level", jInt r.level),
     ("content", jStr r.content), ("enhanced", jBool true)]

/- ===================================================================
   Theorems
   =================================================================== -/

/-- The cardinality facts of `calculateMetrics` stated as one record equality. -/
theorem calculateMetrics_eq (A B : Finset String) :
    calculateMetrics A B =
      { total_toc := A.card
        total_spec := B.card
        common := (A ∩ B).card
        toc_only := (A \ B).card
        spec_only := (B \ A).card
        coverage_percentage :=
          if A = ∅ then 0 else ((A ∩ B).card : ℚ) / (A.card : ℚ) * 100 } := by
  rcases eq_or_ne A ∅ with h | h
  · subst h; simp [calculateMetrics]
  · have hpos : 0 < A.card := Finset.card_pos.mpr (Finset.nonempty_iff_ne_empty.mpr h)
    simp [calculateMetrics, h, hpos]

/-- C1: the Coverage Reconciler returns the five set cardinalities and
`coverage_percentage = common / total_reference * 100`, with 0 for an empty
reference set; on the 4-vs-3 id scenario it returns 75.0 coverage,
`reference_only = 1`, `candidate_only = 0`. -/
theorem coverage_metrics_contract :
    (∀ A B : Finset String,
        (calculateMetrics A B).total_toc = A.card ∧
        (calculateMetrics A B).total_spec = B.card ∧
        (calculateMetrics A B).common = (A ∩ B).card ∧
        (calculateMetrics A B).toc_only = (A \ B).card ∧
        (calculateMetrics A B).spec_only = (B \ A).card ∧
        (A = ∅ → (calculateMetrics A B).coverage_percentage = 0) ∧
        (A ≠ ∅ →
          (calculateMetrics A B).coverage_percentage =
            ((A ∩ B).card : ℚ) / (A.card : ℚ) * 100)) ∧
    (calculateMetrics {"1", "1.1", "1.2", "2"} {"1", "1.1", "2"}).coverage_percentage
        = 75 ∧
    (calculateMetrics {"1", "1.1", "1.2", "2"} {"1", "1.1", "2"}).toc_only = 1 ∧
    (calculateMetrics {"1", "1.1", "1.2", "2"} {"1", "1.1", "2"}).spec_only = 0 := by
  refine ⟨?_, ?_, by decide, by decide⟩
  · intro A B
    rw [calculateMetrics_eq]
    refine ⟨rfl, rfl, rfl, rfl, rfl, ?_, ?_⟩
    · intro h; simp [h]
    · intro h; simp [h]
  · have h1 : ({"1", "1.1", "1.2", "2"} : Finset String).card = 4 := by decide
    have h2 :
        (({"1", "1.1", "1.2", "2"} : Finset String) ∩ {"1", "1.1", "2"}).card = 3 := by
      decide
    have h3 : ({"1", "1.1", "1.2", "2"} : Finset String) ≠ ∅ := by decide
    rw [calculateMetrics_eq]
    simp only [h1, h2, h3, if_neg h3]
    norm_num

/-- Closed instance of `coverage_metrics_contract` discharging its
conditional branches at concrete id sets. -/
theorem coverage_metrics_contract_witness :
    (calculateMetrics ∅ {"9"}).coverage_percentage = 0 ∧
    (calculateMetrics {"1", "2"} {"1"}).coverage_percentage =
      ((({"1", "2"} : Finset String) ∩ {"1"}).card : ℚ) /
        (({"1", "2"} : Finset String).card : ℚ) * 100 :=
  ⟨(coverage_metrics_contract.1 ∅ {"9"}).2.2.2.2.2.1 rfl,
   (coverage_metrics_contract.1 {"1", "2"} {"1"}).2.2.2.2.2.2 (by decide)⟩

/-- C7 counterexample: on the empty inventory, `coverage(A, A)` is 0, not 100
(the `total_toc > 0` guard returns 0), so the claim's "for every inventory A"
fails at `A = ∅`. -/
theorem coverage_self_counterexample :
    ¬ (∀ A : Finset String, (calculateMetrics A A).coverage_percentage = 100) := by
  intro h
  have h0 := h ∅
  rw [calculateMetrics_eq] at h0
  norm_num at h0

/-- C7 amended: for every NONEMPTY inventory A, `coverage(A, A) = 100`, and
coverage is asymmetric in general: swapping reference and candidate changes
the percentage (witness `A = {"1", "2"}`, `B = {"1"}`: 50 vs 100). -/
theorem coverage_self_and_asymmetry :
    (∀ A : Finset String, A ≠ ∅ →
        (calculateMetrics A A).coverage_percentage = 100) ∧
    (calculateMetrics {"1", "2"} {"1"}).coverage_percentage ≠
      (calculateMetrics {"1"} {"1", "2"}).coverage_percentage := by
  constructor
  · intro A h
    rw [calculateMetrics_eq]
    have hpos : (0 : ℚ) < A.card := by
      exact_mod_cast Finset.card_pos.mpr (Finset.nonempty_iff_ne_empty.mpr h)
    simp only [if_neg h, Finset.inter_self]
    field_simp
  · rw [calculateMetrics_eq, calculateMetrics_eq]
    have c1 : (({"1", "2"} : Finset String) ∩ {"1"}).card = 1 := by decide
    have c2 : ({"1", "2"} : Finset String).card = 2 := by decide
    have c3 : (({"1"} : Finset String) ∩ {"1", "2"}).card = 1 := by decide
    have c4 : ({"1"} : Finset String).card = 1 := by decide
    have h1 : ({"1", "2"} : Finset String) ≠ ∅ := by decide
    have h2 : ({"1"} : Finset String) ≠ ∅ := by decide
    simp only [c1, c2, c3, c4, if_neg h1, if_neg h2]
    norm_num

/-- Closed instance of `coverage_self_and_asymmetry` at a concrete
nonempty inventory. -/
theorem coverage_self_and_asymmetry_witness :
    (calculateMetrics {"1"} {"1"}).coverage_percentage = 100 :=
  coverage_self_and_asymmetry.1 {"1"} (by decide)

/-- C9: the reconciler's metrics always satisfy
`common + reference_only = total_reference`,
`common + candidate_only = total_candidate`, and
`0 ≤ coverage_percentage ≤ 100`. -/
theorem coverage_metrics_invariants :
    ∀ A B : Finset String,
      (calculateMetrics A B).common + (calculateMetrics A B).toc_only =
        (calculateMetrics A B).total_toc ∧
      (calculateMetrics A B).common + (calculateMetrics A B).spec_only =
        (calculateMetrics A B).total_spec ∧
      0 ≤ (calculateMetrics A B).coverage_percentage ∧
      (calculateMetrics A B).coverage_percentage ≤ 100 := by
  intro A B
  rw [calculateMetrics_eq]
  refine ⟨Finset.card_inter_add_card_sdiff A B, ?_, ?_, ?_⟩
  · rw [Finset.inter_comm]
    exact Finset.card_inter_add_card_sdiff B A
  · rcases eq_or_ne A ∅ with h | h
    · simp [h]
    · have hpos : (0 : ℚ) < A.card := by
        exact_mod_cast Finset.card_pos.mpr (Finset.nonempty_iff_ne_empty.mpr h)
      simp only [if_neg h]
      positivity
  · rcases eq_or_ne A ∅ with h | h
    · simp [h]
    · have hpos : (0 : ℚ) < A.card := by
        exact_mod_cast Finset.card_pos.mpr (Finset.nonempty_iff_ne_empty.mpr h)
      have hle : ((A ∩ B).card : ℚ) ≤ (A.card : ℚ) := by
        exact_mod_cast Finset.card_le_card (Finset.inter_subset_left)
      simp only [if_neg h]
      calc ((A ∩ B).card : ℚ) / (A.card : ℚ) * 100
          ≤ 1 * 100 := by
            apply mul_le_mul_of_nonneg_right _ (by norm_num)
            exact (div_le_one hpos).mpr hle
        _ = 100 := by norm_num

theorem mkSection_invariant (dt id t : String) (pg : Nat) :
    recognizerInvariant (mkSection dt id t pg) :=
  ⟨rfl, rfl, rfl⟩

/-- C4: every Section emitted by the Recognizer — through the full-body
header parser or through the ToC patterns — satisfies the level / parent /
full-path construction invariant; concretely, id `"2.1.3"` yields parent
`"2.1"` at level 3 and id `"5"` yields an absent parent at level 1. -/
theorem recognizer_emits_by_construction :
    (∀ dt line pg s, parseSectionHeader dt line pg = some s →
        recognizerInvariant s) ∧
    (∀ dt lines pg s, s ∈ extractSectionsFromText dt lines pg →
        recognizerInvariant s) ∧
    ((parseSectionHeader "D" "2.1.3 Overview" 4).map
        (fun s => (s.parent_id, s.level)) = some (some "2.1", 3)) ∧
    ((parseSectionHeader "D" "5 INTRO" 1).map
        (fun s => (s.parent_id, s.level)) = some (none, 1)) := by
  refine ⟨?_, ?_, by decide, by decide⟩
  · intro dt line pg s h
    unfold parseSectionHeader at h
    rcases hm : matchHeaderPattern line.toList with _ | ⟨id, t⟩ <;> rw [hm] at h
    · exact absurd h (by simp)
    · simp only [Option.some.injEq] at h
      exact h ▸ mkSection_invariant ..
  · intro dt lines pg s h
    unfold extractSectionsFromText at h
    rw [List.mem_filterMap] at h
    obtain ⟨line, -, h⟩ := h
    dsimp only at h
    split at h
    · exact absurd h (by simp)
    · split at h
      · simp only [Option.some.injEq] at h
        exact h ▸ mkSection_invariant ..
      · exact absurd h (by simp)

/-- Closed instance of `recognizer_emits_by_construction` at concrete lines,
for both recognizer entry points. -/
theorem recognizer_emits_by_construction_witness :
    recognizerInvariant (mkSection "D" "2.1.3" "Overview" 4) ∧
    recognizerInvariant (mkSection "D" "2.1.2" "Section Title" 53) :=
  ⟨recognizer_emits_by_construction.1 "D" "2.1.3 Overview" 4 _ (by decide),
   recognizer_emits_by_construction.2.1 "D" ["2.1.2 Section Title ... 53"] 9 _
     (by decide)⟩

theorem buildLookup_map (all : List HSec) :
    buildLookup (all.map hsecToJRec) = .ok (mkLookup all) := by
  induction all with
  | nil => rfl
  | cons s rest ih =>
    simp [buildLookup, hsecToJRec, reqKey, getKey, mkLookup, List.find?] at ih ⊢
    simp [ih, hsecToJRec]

theorem dictContains_mkLookup (all : List HSec) (p : String) :
    dictContains (mkLookup all) (jStr p) =
      .ok (all.any (fun t => t.section_id = p)) := by
  simp only [dictContains, mkLookup]
  congr 1
  induction all with
  | nil => rfl
  | cons s rest ih => simp [ih]

theorem dictFind_mkLookup (all : List HSec) (p : String) :
    dictFind (mkLookup all) (jStr p) = (findParent all p).map hsecToJRec := by
  simp only [dictFind, mkLookup, findParent, ← List.map_reverse]
  induction all.reverse with
  | nil => rfl
  | cons s rest ih =>
    by_cases h : s.section_id = p
    · simp [List.find?, h]
    · simpa [List.find?, h] using ih

theorem hvCheckOrphaned_hsec (all : List HSec) (s : HSec) :
    hvCheckOrphaned (hsecToJRec s) (mkLookup all) =
      .ok (orphanSpec (all.map (·.section_id)) s) := by
  cases hp : s.parent_id with
  | none =>
    simp [hvCheckOrphaned, dictGet, getKey, hsecToJRec, hp, truthy, orphanSpec,
      List.find?]
  | some p =>
    by_cases hpe : p = ""
    · simp [hvCheckOrphaned, dictGet, getKey, hsecToJRec, hp, hpe, truthy,
        orphanSpec, List.find?]
    · have hc := dictContains_mkLookup all p
      by_cases hmem : p ∈ all.map (·.section_id)
      · have hany : all.any (fun t => t.section_id = p) = true := by
          simp only [List.any_eq_true]
          obtain ⟨t, ht, hts⟩ := List.mem_map.mp hmem
          exact ⟨t, ht, by simp [hts]⟩
        simp [hvCheckOrphaned, dictGet, getKey, hsecToJRec, hp, hpe, truthy,
          orphanSpec, List.find?, hc, hany, hmem, reqKey]
      · have hany : all.any (fun t => t.section_id = p) = false := by
          rw [List.any_eq_false]
          intro t ht
          simp only [decide_eq_true_eq]
          intro hts
          exact hmem (List.mem_map.mpr ⟨t, ht, hts⟩)
        simp [hvCheckOrphaned, dictGet, getKey, hsecToJRec, hp, hpe, truthy,
          orphanSpec, List.find?, hc, hany, hmem, reqKey]

theorem hvCheckLevel_hsec (s : HSec) :
    hvCheckLevel (hsecToJRec s) = .ok (levelSpec s) := by
  simp [hvCheckLevel, reqKey, getKey, hsecToJRec, pyCountDots, levelSpec,
    List.find?]
  split <;> simp_all

theorem hvCheckParentChild_hsec (all : List HSec) (s : HSec) :
    hvCheckParentChild (hsecToJRec s) (mkLookup all) = .ok (pcSpec all s) := by
  cases hp : s.parent_id with
  | none =>
    simp [hvCheckParentChild, dictGet, getKey, hsecToJRec, hp, truthy, pcSpec,
      List.find?]
  | some p =>
    by_cases hpe : p = ""
    · simp [hvCheckParentChild, dictGet, getKey, hsecToJRec, hp, hpe, truthy,
        pcSpec, List.find?]
    · have hc := dictContains_mkLookup all p
      have hf := dictFind_mkLookup all p
      cases hfp : findParent all p with
      | none =>
        have hany : all.any (fun t => t.section_id = p) = false := by
          rw [List.any_eq_false]
          intro t ht
          simp only [decide_eq_true_eq]
          intro hts
          have : (all.reverse.find? (fun t => t.section_id = p)).isSome := by
            rw [List.find?_isSome]
            exact ⟨t, List.mem_reverse.mpr ht, by simp [hts]⟩
          rw [show all.reverse.find? (fun t => t.section_id = p) =
              findParent all p from rfl, hfp] at this
          simp at this
        simp [hvCheckParentChild, dictGet, getKey, hsecToJRec, hp, hpe, truthy,
          pcSpec, List.find?, hc, hany, hfp]
      | some parent =>
        have hany : all.any (fun t => t.section_id = p) = true := by
          have : (all.reverse.find? (fun t => t.section_id = p)).isSome := by
            rw [show all.reverse.find? (fun t => t.section_id = p) =
                findParent all p from rfl, hfp]
            rfl
          rw [List.find?_isSome] at this
          obtain ⟨t, ht, hts⟩ := this
          simp only [List.any_eq_true]
          exact ⟨t, List.mem_reverse.mp ht, hts⟩
        by_cases hl : parent.level = s.level - 1
        · simp [hvCheckParentChild, dictGet, getKey, hsecToJRec, hp, hpe,
            truthy, pcSpec, List.find?, hc, hany, hfp, hf, reqKey, jvalSubOne,
            hl]
        · simp [hvCheckParentChild, dictGet, getKey, hsecToJRec, hp, hpe,
            truthy, pcSpec, List.find?, hc, hany, hfp, hf, reqKey, jvalSubOne,
            hl]

theorem hvStep_hsec (all : List HSec) (acc : HierarchyResult) (s : HSec) :
    hvStep (mkLookup all) acc (hsecToJRec s) =
      { acc with
        orphaned_sections :=
          acc.orphaned_sections ++ (orphanSpec (all.map (·.section_id)) s).toList
        level_inconsistencies :=
          acc.level_inconsistencies ++ (levelSpec s).toList
        parent_child_mismatches :=
          acc.parent_child_mismatches ++ (pcSpec all s).toList } := by
  simp only [hvStep, hvCheckOrphaned_hsec, hvCheckLevel_hsec,
    hvCheckParentChild_hsec]
  cases orphanSpec (all.map (·.section_id)) s <;>
    cases levelSpec s <;>
    cases pcSpec all s <;>
    simp [Option.toList]

theorem hvLoop_hsec (all : List HSec) (rest : List HSec)
    (acc : HierarchyResult) (h : acc.error = none) :
    hvLoop (mkLookup all) (rest.map hsecToJRec) acc =
      { total_sections := acc.total_sections
        orphaned_sections :=
          acc.orphaned_sections ++
            rest.filterMap (orphanSpec (all.map (·.section_id)))
        level_inconsistencies :=
          acc.level_inconsistencies ++ rest.filterMap levelSpec
        parent_child_mismatches :=
          acc.parent_child_mismatches ++ rest.filterMap (pcSpec all)
        error := none } := by
  induction rest generalizing acc with
  | nil =>
    cases acc
    simp_all [hvLoop]
  | cons s rest ih =>
    rw [List.map_cons, hvLoop, hvStep_hsec]
    simp only [h]
    rw [ih _ (by simp [h])]
    simp [List.filterMap_cons]
    cases orphanSpec (all.map (·.section_id)) s <;>
      cases levelSpec s <;>
      cases pcSpec all s <;>
      simp [Option.toList]

/-- On a well-formed inventory no check raises and the three defect lists
are exactly the per-section outcomes of orphan / level / parent-child
checks. -/
theorem hierarchyValidate_hsec (secs : List HSec) :
    hierarchyValidate (.ok (secs.map hsecToJRec)) =
      { total_sections := secs.length
        orphaned_sections := secs.filterMap (orphanSpec (secs.map (·.section_id)))
        level_inconsistencies := secs.filterMap levelSpec
        parent_child_mismatches := secs.filterMap (pcSpec secs)
        error := none } := by
  rw [hierarchyValidate, buildLookup_map]
  dsimp only
  rw [hvLoop_hsec secs secs _ rfl]
  simp

/-- C2: a section is reported orphaned exactly when it has a non-empty
`parent_id` that is no section's id in the inventory; a section without a
`parent_id` is never reported; on the inventory
{"1", "1.1", "1.1.1", "2.1"} with section "2" omitted, exactly one orphan
("2.1", missing parent "2") is reported. -/
theorem validator_orphaned_sections :
    (∀ secs : List HSec,
        (hierarchyValidate (.ok (secs.map hsecToJRec))).orphaned_sections =
          secs.filterMap (orphanSpec (secs.map (·.section_id)))) ∧
    (∀ ids : List String, ∀ s : HSec, s.parent_id = none →
        orphanSpec ids s = none) ∧
    ((hierarchyValidate (.ok ([⟨"1", "Introduction", 1, none⟩,
        ⟨"1.1", "Overview", 2, some "1"⟩,
        ⟨"1.1.1", "Scope", 3, some "1.1"⟩,
        ⟨"2.1", "Power Overview", 2, some "2"⟩].map hsecToJRec))).orphaned_sections
      = [⟨jStr "2.1", jStr "Power Overview", jStr "2"⟩]) := by
  refine ⟨?_, ?_, by decide⟩
  · intro secs
    rw [hierarchyValidate_hsec]
  · intro ids s h
    simp [orphanSpec, h]

/-- Closed instance of `validator_orphaned_sections`: a parentless root
section produces no orphan entry. -/
theorem validator_orphaned_sections_witness :
    orphanSpec [] ⟨"1", "Introduction", 1, none⟩ = none :=
  validator_orphaned_sections.2.1 [] ⟨"1", "Introduction", 1, none⟩ rfl

/-- C3: a section is reported level-inconsistent exactly when its stored
level differs from `count('.', section_id) + 1`; the check reads the id
alone (replacing `parent_id` never changes it); section "3.1.1" stored with
level 2 yields exactly one entry with `actual_level = 2`,
`expected_level = 3`. -/
theorem validator_level_inconsistencies :
    (∀ secs : List HSec,
        (hierarchyValidate (.ok (secs.map hsecToJRec))).level_inconsistencies =
          secs.filterMap levelSpec) ∧
    (∀ s : HSec, ∀ p : Option String,
        levelSpec { s with parent_id := p } = levelSpec s) ∧
    ((hierarchyValidate (.ok ([⟨"3.1.1", "X", 2, some "3.1"⟩].map
        hsecToJRec))).level_inconsistencies =
      [⟨jStr "3.1.1", jStr "X", jInt 2, 3⟩]) := by
  refine ⟨?_, ?_, by decide⟩
  · intro secs
    rw [hierarchyValidate_hsec]
  · intro s p
    simp [levelSpec]

theorem hvStep_total_and_error (lk : Lookup) (acc : HierarchyResult)
    (r : JRec) :
    (hvStep lk acc r).total_sections = acc.total_sections ∧
    (hvStep lk acc r).orphaned_sections.take acc.orphaned_sections.length =
      acc.orphaned_sections ∧
    (hvStep lk acc r).level_inconsistencies.take
        acc.level_inconsistencies.length = acc.level_inconsistencies ∧
    (hvStep lk acc r).parent_child_mismatches.take
        acc.parent_child_mismatches.length = acc.parent_child_mismatches := by
  unfold hvStep
  cases hvCheckOrphaned r lk with
  | error e => simp [List.take_left]
  | ok o =>
    cases o <;>
      [skip; skip] <;>
      · cases hvCheckLevel r with
        | error e => simp [List.take_left, List.take_append_of_le_length]
        | ok l =>
          cases l <;>
            · cases hvCheckParentChild r lk with
              | error e =>
                simp [List.take_left, List.take_append_of_le_length]
              | ok p =>
                cases p <;>
                  simp [List.take_left, List.take_append_of_le_length]

theorem hvLoop_preserves (lk : Lookup) (rs : List JRec) :
    ∀ acc : HierarchyResult,
      (hvLoop lk rs acc).total_sections = acc.total_sections ∧
      acc.orphaned_sections <+: (hvLoop lk rs acc).orphaned_sections ∧
      acc.level_inconsistencies <+: (hvLoop lk rs acc).level_inconsistencies ∧
      acc.parent_child_mismatches <+:
        (hvLoop lk rs acc).parent_child_mismatches := by
  induction rs with
  | nil => intro acc; simp [hvLoop]
  | cons r rest ih =>
    intro acc
    have hstep := hvStep_total_and_error lk acc r
    have hpre1 : acc.orphaned_sections <+: (hvStep lk acc r).orphaned_sections :=
      List.prefix_iff_eq_take.mpr hstep.2.1.symm
    have hpre2 : acc.level_inconsistencies <+:
        (hvStep lk acc r).level_inconsistencies :=
      List.prefix_iff_eq_take.mpr hstep.2.2.1.symm
    have hpre3 : acc.parent_child_mismatches <+:
        (hvStep lk acc r).parent_child_mismatches :=
      List.prefix_iff_eq_take.mpr hstep.2.2.2.symm
    have hred : hvLoop lk (r :: rest) acc =
        match (hvStep lk acc r).error with
        | some _ => hvStep lk acc r
        | none => hvLoop lk rest (hvStep lk acc r) := rfl
    rw [hred]
    cases herr : (hvStep lk acc r).error with
    | some e => exact ⟨hstep.1, hpre1, hpre2, hpre3⟩
    | none =>
      obtain ⟨it, ip1, ip2, ip3⟩ := ih (hvStep lk acc r)
      exact ⟨it.trans hstep.1, hpre1.trans ip1, hpre2.trans ip2,
        hpre3.trans ip3⟩

/-- C8: an unreadable storage load yields the initial result with the
exception text as a single `error` string; `total_sections` is always the
number of loaded records even when a later record raises; the loop only ever
appends to the defect lists accumulated so far; and on a concrete inventory
whose second record lacks `level`, the result keeps the first record's
orphan entry, sets the error, and never processes the third record. -/
theorem validator_captures_errors :
    (∀ e, hierarchyValidate (.error e) =
        { total_sections := 0
          orphaned_sections := []
          level_inconsistencies := []
          parent_child_mismatches := []
          error := some e }) ∧
    (∀ secs : List JRec,
        (hierarchyValidate (.ok secs)).total_sections = secs.length) ∧
    (∀ lk : Lookup, ∀ rs : List JRec, ∀ acc : HierarchyResult,
        acc.orphaned_sections <+: (hvLoop lk rs acc).orphaned_sections ∧
        acc.level_inconsistencies <+:
          (hvLoop lk rs acc).level_inconsistencies ∧
        acc.parent_child_mismatches <+:
          (hvLoop lk rs acc).parent_child_mismatches) ∧
    (hierarchyValidate (.ok
        [hsecToJRec ⟨"2.1", "Power Overview", 2, some "2"⟩,
         [("section_id", jStr "3")],
         hsecToJRec ⟨"4.1", "After", 2, some "4"⟩]) =
      { total_sections := 3
        orphaned_sections := [⟨jStr "2.1", jStr "Power Overview", jStr "2"⟩]
        level_inconsistencies := []
        parent_child_mismatches := []
        error := some "KeyError: level" }) := by
  refine ⟨fun e => rfl, ?_, ?_, by decide⟩
  · intro secs
    have hred : hierarchyValidate (.ok secs) =
        match buildLookup secs with
        | .error e =>
          { total_sections := secs.length
            orphaned_sections := []
            level_inconsistencies := []
            parent_child_mismatches := []
            error := some e }
        | .ok lk =>
          hvLoop lk secs
            { total_sections := secs.length
              orphaned_sections := []
              level_inconsistencies := []
              parent_child_mismatches := []
              error := none } := rfl
    rw [hred]
    cases hb : buildLookup secs with
    | error e => rfl
    | ok lk => exact (hvLoop_preserves lk secs _).1
  · intro lk rs acc
    exact (hvLoop_preserves lk rs acc).2

theorem foldlMinLevel_mem (t : List TocEntry) :
    ∀ h : TocEntry,
      t.foldl (fun best e => if e.level < best.level then e else best) h ∈
        h :: t := by
  induction t with
  | nil => intro h; simp [List.foldl]
  | cons e t ih =>
    intro h
    have hm := ih (if e.level < h.level then e else h)
    rw [List.mem_cons] at hm
    rcases hm with hm | hm
    · show List.foldl _ (if e.level < h.level then e else h) t ∈ h :: e :: t
      rw [hm]
      by_cases hc : e.level < h.level <;> simp [hc]
    · show List.foldl _ (if e.level < h.level then e else h) t ∈ h :: e :: t
      exact List.mem_cons_of_mem _ (List.mem_cons_of_mem _ hm)

theorem tocEntryForPage_mem {toc : List TocEntry} {p : Nat} {e : TocEntry}
    (h : tocEntryForPage toc p = some e) : e ∈ toc ∧ e.page = p := by
  unfold tocEntryForPage at h
  rcases hf : toc.filter (fun e => e.page = p) with _ | ⟨hd, tl⟩ <;>
    rw [hf] at h
  · exact absurd h (by simp)
  · simp only [Option.some.injEq] at h
    have hm : e ∈ hd :: tl := h ▸ foldlMinLevel_mem tl hd
    rw [← hf] at hm
    exact ⟨(List.mem_filter.mp hm).1, by
      simpa using (List.mem_filter.mp hm).2⟩

theorem tocEntryForPage_none {toc : List TocEntry} {p : Nat} :
    tocEntryForPage toc p = none ↔ ∀ e ∈ toc, e.page ≠ p := by
  unfold tocEntryForPage
  rcases hf : toc.filter (fun e => e.page = p) with _ | ⟨hd, tl⟩ <;> rw [hf]
  · simp only [true_iff]
    intro e he hep
    have hmem : e ∈ toc.filter (fun e => decide (e.page = p)) :=
      List.mem_filter.mpr ⟨he, by simp [hep]⟩
    rw [hf] at hmem
    simp at hmem
  · constructor
    · intro h
      exact absurd h (by simp)
    · intro hall
      exfalso
      have hm : hd ∈ toc.filter (fun e => decide (e.page = p)) := by
        rw [hf]; exact List.mem_cons_self hd tl
      exact hall hd (List.mem_filter.mp hm).1
        (by simpa using (List.mem_filter.mp hm).2)

/-- A stripped text longer than 50 characters is in particular non-empty. -/
theorem bigText_ne_empty {t : String} (h : 50 < (pyStrip t).length) :
    t ≠ "" := by
  intro he
  subst he
  simp [pyStrip] at h

theorem getMissingPages_nodup (tocPages specPages : List Nat) :
    (getMissingPages tocPages specPages).Nodup :=
  (List.nodup_range' _ _).filter _

theorem synthesizeForPage_pos {ts : Nat → String} (toc : List TocEntry)
    {p : Nat} (hc : ts p ≠ "" ∧ 50 < (pyStrip (ts p)).length) :
    synthesizeForPage ts toc p =
      some (match tocEntryForPage toc p with
            | some e => enhFromToc e p (ts p)
            | none => enhPlaceholder p (ts p)) := by
  unfold synthesizeForPage
  rw [if_pos hc]
  cases tocEntryForPage toc p <;> rfl

theorem synthesizeForPage_neg {ts : Nat → String} (toc : List TocEntry)
    {p : Nat} (hc : ¬ (ts p ≠ "" ∧ 50 < (pyStrip (ts p)).length)) :
    synthesizeForPage ts toc p = none := by
  unfold synthesizeForPage
  rw [if_neg hc]

/-- The pages of the synthesized sections are exactly the missing pages
whose text passes the 50-character test, in order. -/
theorem extractMissingContent_map_page (ts : Nat → String)
    (toc : List TocEntry) (spec : List SpecEntry) :
    (extractMissingContent ts toc spec).map (·.page) =
      (getMissingPages (toc.map (·.page)) (spec.map (·.page))).filter
        (fun p => decide (ts p ≠ "" ∧ 50 < (pyStrip (ts p)).length)) := by
  unfold extractMissingContent
  generalize getMissingPages (toc.map (·.page)) (spec.map (·.page)) = l
  induction l with
  | nil => rfl
  | cons p l ih =>
    rw [List.filterMap_cons, List.filter_cons]
    by_cases hc : ts p ≠ "" ∧ 50 < (pyStrip (ts p)).length
    · rw [synthesizeForPage_pos toc hc]
      have : decide (ts p ≠ "" ∧ 50 < (pyStrip (ts p)).length) = true :=
        decide_eq_true hc
      rw [this]
      simp only [List.map_cons, ih]
      cases tocEntryForPage toc p <;> rfl
    · rw [synthesizeForPage_neg toc hc]
      have : decide (ts p ≠ "" ∧ 50 < (pyStrip (ts p)).length) = false :=
        decide_eq_false hc
      rw [this]
      exact ih

/-- Every enhanced record is persisted with `enhanced: true`. -/
theorem enhRec_enhanced_key (r : EnhRec) :
    getKey (enhRecToJRec r) "enhanced" = some (jBool true) := by
  cases hp : r.parentField <;> simp [enhRecToJRec, getKey, List.find?, hp]

/-- C5: each synthesized section belongs to a missing page whose stripped
text exceeds 50 characters, carries the page's raw text as `content` and the
`enhanced: true` flag, and copies the ToC entry for that exact page when one
exists (placeholder `"enhanced_{page}"` at level 1 otherwise); a missing
page with big text yields exactly one section, and a page at or below the
threshold yields none. -/
theorem gap_fill_synthesis :
    ∀ (ts : Nat → String) (toc : List TocEntry) (spec : List SpecEntry),
      (∀ r ∈ extractMissingContent ts toc spec,
          r.page ∈ getMissingPages (toc.map (·.page)) (spec.map (·.page)) ∧
          50 < (pyStrip (ts r.page)).length ∧
          r.content = ts r.page ∧
          getKey (enhRecToJRec r) "enhanced" = some (jBool true) ∧
          ((∃ e ∈ toc, e.page = r.page ∧
              r = enhFromToc e r.page (ts r.page)) ∨
           ((∀ e ∈ toc, e.page ≠ r.page) ∧
              r = enhPlaceholder r.page (ts r.page)))) ∧
      (∀ p ∈ getMissingPages (toc.map (·.page)) (spec.map (·.page)),
          50 < (pyStrip (ts p)).length →
          ((extractMissingContent ts toc spec).map (·.page)).count p = 1) ∧
      (∀ p : Nat, ¬ 50 < (pyStrip (ts p)).length →
          ((extractMissingContent ts toc spec).map (·.page)).count p = 0) := by
  intro ts toc spec
  refine ⟨?_, ?_, ?_⟩
  · intro r hr
    rw [extractMissingContent, List.mem_filterMap] at hr
    obtain ⟨p, hp, hsyn⟩ := hr
    by_cases hc : ts p ≠ "" ∧ 50 < (pyStrip (ts p)).length
    · rw [synthesizeForPage_pos toc hc, Option.some.injEq] at hsyn
      have hpage : r.page = p := by
        cases he : tocEntryForPage toc p <;>
          rw [he] at hsyn <;> rw [← hsyn] <;> rfl
      subst hpage
      refine ⟨hp, hc.2, ?_, enhRec_enhanced_key r, ?_⟩
      · cases he : tocEntryForPage toc r.page <;>
          rw [he] at hsyn <;> rw [← hsyn] <;> rfl
      · cases he : tocEntryForPage toc r.page with
        | some e =>
          rw [he] at hsyn
          obtain ⟨hmem, hpg⟩ := tocEntryForPage_mem he
          exact Or.inl ⟨e, hmem, hpg, hsyn.symm⟩
        | none =>
          rw [he] at hsyn
          exact Or.inr ⟨tocEntryForPage_none.mp he, hsyn.symm⟩
    · rw [synthesizeForPage_neg toc hc] at hsyn
      exact absurd hsyn (by simp)
  · intro p hp h50
    rw [extractMissingContent_map_page]
    have hc : ts p ≠ "" ∧ 50 < (pyStrip (ts p)).length :=
      ⟨bigText_ne_empty h50, h50⟩
    exact List.count_eq_one_of_mem
      ((getMissingPages_nodup _ _).filter _)
      (List.mem_filter.mpr ⟨hp, decide_eq_true hc⟩)
  · intro p h50
    rw [extractMissingContent_map_page]
    refine List.count_eq_zero_of_not_mem (fun hmem => ?_)
    have := List.of_mem_filter hmem
    exact h50 (of_decide_eq_true this).2

/-- Closed instance of `gap_fill_synthesis` at a concrete gap: page 2 is
missing, its text is 60 characters, and the ToC entry for page 2 is
copied. -/
theorem gap_fill_synthesis_witness :
    ((extractMissingContent
        (fun _ => "012345678901234567890123456789012345678901234567890123456789")
        [⟨"1.2", "T", 2, 2, some "1"⟩] [⟨"1", 1⟩, ⟨"3", 3⟩]).map
      (·.page)).count 2 = 1 :=
  (gap_fill_synthesis
      (fun _ => "012345678901234567890123456789012345678901234567890123456789")
      [⟨"1.2", "T", 2, 2, some "1"⟩] [⟨"1", 1⟩, ⟨"3", 3⟩]).2.1 2
    (by decide) (by decide)

theorem le_maxList {l : List Nat} {x : Nat} (h : x ∈ l) : x ≤ maxList l := by
  induction l with
  | nil => cases h
  | cons a l ih =>
    rcases List.mem_cons.mp h with rfl | h
    · exact Nat.le_max_left _ _
    · exact (ih h).trans (Nat.le_max_right _ _)

theorem maxList_le {l : List Nat} {n : Nat} (h : ∀ x ∈ l, x ≤ n) :
    maxList l ≤ n := by
  induction l with
  | nil => exact Nat.zero_le n
  | cons a l ih =>
    exact Nat.max_le.mpr ⟨h a (List.mem_cons_self a l),
      ih (fun x hx => h x (List.mem_cons_of_mem a hx))⟩

/-- C6: a page already covered by the candidate inventory is never
synthesized, and when every missing page's text passes the threshold, a
second gap-fill pass over the candidate inventory extended with the
appended sections computes an empty missing-page set and appends nothing. -/
theorem gap_fill_idempotent :
    ∀ (ts : Nat → String) (toc : List TocEntry) (spec : List SpecEntry),
      (∀ r ∈ extractMissingContent ts toc spec,
          r.page ∉ spec.map (·.page)) ∧
      ((∀ p ∈ getMissingPages (toc.map (·.page)) (spec.map (·.page)),
            50 < (pyStrip (ts p)).length) →
        getMissingPages (toc.map (·.page))
            ((spec ++ (extractMissingContent ts toc spec).map
              enhToSpecEntry).map (·.page)) = [] ∧
        extractMissingContent ts toc
            (spec ++ (extractMissingContent ts toc spec).map enhToSpecEntry)
          = []) := by
  intro ts toc spec
  constructor
  · intro r hr
    have hpg : r.page ∈ (extractMissingContent ts toc spec).map (·.page) :=
      List.mem_map_of_mem _ hr
    rw [extractMissingContent_map_page] at hpg
    have hmiss := (List.mem_filter.mp hpg).1
    rw [getMissingPages] at hmiss
    have := List.of_mem_filter hmiss
    exact of_decide_eq_true this
  · intro hbig
    have houtpages : (extractMissingContent ts toc spec).map (·.page) =
        getMissingPages (toc.map (·.page)) (spec.map (·.page)) := by
      rw [extractMissingContent_map_page]
      exact List.filter_eq_self.mpr (fun p hp =>
        decide_eq_true ⟨bigText_ne_empty (hbig p hp), hbig p hp⟩)
    have hp2 : (spec ++ (extractMissingContent ts toc spec).map
          enhToSpecEntry).map (·.page) =
        spec.map (·.page) ++
          getMissingPages (toc.map (·.page)) (spec.map (·.page)) := by
      rw [List.map_append, List.map_map, ← houtpages]
      rfl
    have hmax2 :
        max (maxList (toc.map (·.page)))
            (maxList (spec.map (·.page) ++
              getMissingPages (toc.map (·.page)) (spec.map (·.page)))) ≤
          max (maxList (toc.map (·.page))) (maxList (spec.map (·.page))) := by
      refine Nat.max_le.mpr ⟨Nat.le_max_left _ _, ?_⟩
      refine (maxList_le (fun x hx => ?_)).trans (le_refl _)
      rcases List.mem_append.mp hx with hx | hx
      · exact (le_maxList hx).trans (Nat.le_max_right _ _)
      · rw [getMissingPages] at hx
        have := (List.mem_filter.mp hx).1
        have hlt := (List.mem_range'_1.mp this).2
        omega
    have hempty : getMissingPages (toc.map (·.page))
        ((spec ++ (extractMissingContent ts toc spec).map
          enhToSpecEntry).map (·.page)) = [] := by
      rw [hp2, getMissingPages]
      rw [List.filter_eq_nil_iff]
      intro p hp
      have hmem := List.mem_range'_1.mp hp
      simp only [decide_not, Bool.not_eq_true', decide_eq_false_iff_not,
        Decidable.not_not]
      by_cases hs : p ∈ spec.map (·.page)
      · exact List.mem_append_left _ hs
      · refine List.mem_append_right _ ?_
        rw [getMissingPages]
        refine List.mem_filter.mpr ⟨?_, by simpa using hs⟩
        rw [List.mem_range'_1]
        constructor
        · exact hmem.1
        · have := hmem.2
          have := hmax2
          omega
    exact ⟨hempty, by rw [extractMissingContent, hempty]; rfl⟩

/-- Closed instance of `gap_fill_idempotent`: the section synthesized for
missing page 2 does not cover an already-covered page, and the second pass
over the extended inventory appends nothing. -/
theorem gap_fill_idempotent_witness :
    (enhFromToc ⟨"1.2", "T", 2, 2, some "1"⟩ 2
        "012345678901234567890123456789012345678901234567890123456789").page ∉
      ([⟨"1", 1⟩, ⟨"3", 3⟩] : List SpecEntry).map (·.page) ∧
    extractMissingContent
        (fun _ =>
          "012345678901234567890123456789012345678901234567890123456789")
        [⟨"1.2", "T", 2, 2, some "1"⟩]
        ([⟨"1", 1⟩, ⟨"3", 3⟩] ++
          (extractMissingContent
            (fun _ =>
              "012345678901234567890123456789012345678901234567890123456789")
            [⟨"1.2", "T", 2, 2, some "1"⟩]
            [⟨"1", 1⟩, ⟨"3", 3⟩]).map enhToSpecEntry) = [] :=
  ⟨(gap_fill_idempotent
      (fun _ =>
        "012345678901234567890123456789012345678901234567890123456789")
      [⟨"1.2", "T", 2, 2, some "1"⟩] [⟨"1", 1⟩, ⟨"3", 3⟩]).1 _ (by decide),
   ((gap_fill_idempotent
      (fun _ =>
        "012345678901234567890123456789012345678901234567890123456789")
      [⟨"1.2", "T", 2, 2, some "1"⟩] [⟨"1", 1⟩, ⟨"3", 3⟩]).2 (by decide)).2⟩

theorem checkRequiredFields_enhRec (r : EnhRec) :
    "full_path" ∈ checkRequiredFields (enhRecToJRec r) := by
  cases hp : r.parentField <;>
    simp [checkRequiredFields, enhRecToJRec, schemaRequiredFields, hp]

theorem schemaStep_invalid_enh (acc : SchemaResult) (r : EnhRec) :
    (schemaStep acc (enhRecToJRec r)).invalid_records =
      acc.invalid_records + 1 := by
  have h : checkRequiredFields (enhRecToJRec r) ≠ [] := by
    intro he
    have hm := checkRequiredFields_enhRec r
    rw [he] at hm
    cases hm
  simp [schemaStep, h]

theorem schemaFoldl_enh (enh : List EnhRec) :
    ∀ acc : SchemaResult,
      (List.foldl schemaStep acc (enh.map enhRecToJRec)).invalid_records =
        acc.invalid_records + enh.length := by
  induction enh with
  | nil => intro acc; simp
  | cons r enh ih =>
    intro acc
    rw [List.map_cons, List.foldl_cons, ih, schemaStep_invalid_enh,
      List.length_cons]
    omega

theorem schemaValidate_append_enh (orig : List JRec) (enh : List EnhRec) :
    (schemaValidate (orig ++ enh.map enhRecToJRec)).invalid_records =
      (schemaValidate orig).invalid_records + enh.length := by
  rw [schemaValidate, List.foldl_append]
  exact schemaFoldl_enh enh _

/-- C10: every enhanced record lacks the required `full_path` field (the
placeholder shape also lacks `parent_id`), so it fails the Schema
Validator's required-field check; appending N enhanced records to an
inventory raises `invalid_records` by exactly N — in particular the result
reports at least N invalid records after gap-filling. -/
theorem enhanced_records_fail_schema :
    (∀ r : EnhRec, "full_path" ∈ checkRequiredFields (enhRecToJRec r)) ∧
    (∀ r : EnhRec, r.parentField = none →
        "parent_id" ∈ checkRequiredFields (enhRecToJRec r)) ∧
    (∀ (orig : List JRec) (enh : List EnhRec),
        (schemaValidate (orig ++ enh.map enhRecToJRec)).invalid_records =
          (schemaValidate orig).invalid_records + enh.length) ∧
    (∀ (ts : Nat → String) (toc : List TocEntry) (spec : List SpecEntry)
        (orig : List JRec),
        (extractMissingContent ts toc spec).length ≤
          (schemaValidate (orig ++ (extractMissingContent ts toc spec).map
            enhRecToJRec)).invalid_records) := by
  refine ⟨checkRequiredFields_enhRec, ?_, schemaValidate_append_enh, ?_⟩
  · intro r hp
    simp [checkRequiredFields, enhRecToJRec, schemaRequiredFields, hp]
  · intro ts toc spec orig
    rw [schemaValidate_append_enh]
    exact Nat.le_add_left _ _

/-- Closed instance of `enhanced_records_fail_schema`: the placeholder
record for page 7 misses `parent_id`, and one appended enhanced record makes
one invalid record. -/
theorem enhanced_records_fail_schema_witness :
    "parent_id" ∈ checkRequiredFields (enhRecToJRec (enhPlaceholder 7 "x")) ∧
    (schemaValidate ([] ++ [enhPlaceholder 7 "x"].map
      enhRecToJRec)).invalid_records = 1 :=
  ⟨enhanced_records_fail_schema.2.1 (enhPlaceholder 7 "x") rfl,
   enhanced_records_fail_schema.2.2.1 [] [enhPlaceholder 7 "x"]⟩
